import Mathlib

/-!
Verification development for the csv_matching record-linkage pipeline.

The definitions below are a shallow embedding of the matching core:
* `src/src/data_processing/matching/preprocess.py` (`extract_unit_number`,
  `normalize_area`),
* `src/src/data_processing/matching/deterministic.py`
  (`tier1_deterministic_match`),
* `src/matching/fuzzy.py` (component scores, `assign_confidence_bucket`,
  `tier2_fuzzy_match`),
* `src/src/data_processing/matching/review_helpers.py`
  (`merge_review_decisions`),
* `src/src/data_processing/matching/pipeline.py` (the union of Tier 1 and
  reconciled Tier 2 matches in `run_matching_pipeline`).

DataFrames are modelled as a column-name list plus typed rows; machine floats
are modelled as exact rationals; Python `round` is modelled as round half to
even on rationals.  Output columns never read again by the code (component
scores, `area_diff_pct`, `pipeline_run_id`, reviewer notes) are omitted from
the row types; `pipeline_run_id` in particular is a wall-clock timestamp and
carries no matching information.  The reconciler is embedded twice: a
row-level function for the effect of one application on the match rows, and
a frame-level function that also tracks the merge's suffixed columns and the
indexing error a re-application runs into.
-/

namespace CsvMatching

attribute [local semireducible] Rat.add Rat.sub Rat.mul Rat.inv Rat.ofScientific

/-! ### Python string and rounding primitives -/

/-- Python `str.strip()`: remove leading and trailing whitespace. -/
def pyStrip (s : String) : String :=
  ⟨((s.data.dropWhile Char.isWhitespace).reverse.dropWhile Char.isWhitespace).reverse⟩

/-- Whether the string contains a decimal digit (`re.search(r'(\d+)')` succeeds). -/
def hasDigitStr (s : String) : Bool :=
  s.data.any Char.isDigit

/-- The first maximal run of digits of the string, as matched by
`re.search(r'(\d+)')`. -/
def firstDigitRun (s : String) : String :=
  ⟨(s.data.dropWhile (fun c => !c.isDigit)).takeWhile Char.isDigit⟩

/-- Python `str.zfill(w)`: left-pad with `'0'` to width `w`. -/
def zfill (w : Nat) (s : String) : String :=
  ⟨List.replicate (w - s.data.length) '0' ++ s.data⟩

/-- Round half to even to an integer (the rounding mode of Python `round`). -/
def roundHalfEven (x : ℚ) : ℤ :=
  let f : ℤ := ⌊x⌋
  let r : ℚ := x - f
  if r < 1/2 then f
  else if 1/2 < r then f + 1
  else if Even f then f else f + 1

/-- Python `round(x, k)` modelled on exact rationals. -/
def pyRoundTo (k : Nat) (x : ℚ) : ℚ :=
  (roundHalfEven (x * (10 : ℚ) ^ k) : ℚ) / (10 : ℚ) ^ k

/-! ### Normalizer: `preprocess.py`

`extract_unit_number` (lines 135-157): empty/NaN input yields `""`; otherwise
the input is stripped, the first digit run (if any) is zero-padded to 4
digits, and digit-free text is returned stripped but otherwise unchanged.

`normalize_area` (lines 160-182): NaN or unparseable input (both modelled as
`none`) yields `0.0`; a numeric value below 1000 is taken to be square feet
and scaled by `0.092903`; the result is rounded to 2 decimals. -/

def extract_unit_number (s : String) : String :=
  if s = "" then ""
  else
    let t := pyStrip s
    if hasDigitStr t then zfill 4 (firstDigitRun t) else t

def normalize_area (v : Option ℚ) : ℚ :=
  match v with
  | none => 0
  | some a =>
    let a := if a < 1000 then a * (92903 / 1000000) else a
    pyRoundTo 2 a

/-! ### Data model

Typed rows for the owner, transaction, match and decision records.  A frame
is a list of column names together with its rows; the column list is what the
schema checks of Tier 1/Tier 2 and the `owner_id`/`txn_id` generation branches
inspect. -/

structure ORow where
  owner_id : Nat
  composite_key : String
  area_sqm : ℚ
  project_clean : String
  building_clean : String
  unit_no : String
  deriving DecidableEq, Repr

structure TRow where
  txn_id : Nat
  composite_key : String
  area_sqm : ℚ
  project_clean : String
  building_clean : String
  unit_no : String
  deriving DecidableEq, Repr

structure Frame (ρ : Type) where
  cols : List String
  rows : List ρ
  deriving DecidableEq, Repr

def emptyOFrame : Frame ORow := ⟨[], []⟩
def emptyTFrame : Frame TRow := ⟨[], []⟩

instance {ε α : Type} [DecidableEq ε] [DecidableEq α] : DecidableEq (Except ε α) := fun x y =>
  match x, y with
  | Except.ok a, Except.ok b =>
    if h : a = b then isTrue (by rw [h])
    else isFalse fun hc => h (by cases hc; rfl)
  | Except.error a, Except.error b =>
    if h : a = b then isTrue (by rw [h])
    else isFalse fun hc => h (by cases hc; rfl)
  | Except.ok _, Except.error _ => isFalse fun hc => Except.noConfusion hc
  | Except.error _, Except.ok _ => isFalse fun hc => Except.noConfusion hc

/-- One row of a matches DataFrame; the shared columns of the Tier 1 and
Tier 2 outputs that the claims read. -/
structure MRow where
  owner_id : Nat
  txn_id : Nat
  match_confidence : ℚ
  confidence_bucket : String
  review_status : String
  match_method : String
  deriving DecidableEq, Repr

/-- One human review decision (`owner_id, txn_id, review_status, reviewer_notes`
are the columns `merge_review_decisions` selects). -/
structure Decision where
  owner_id : Nat
  txn_id : Nat
  review_status : String
  reviewer_notes : String
  deriving DecidableEq, Repr

/-! ### Tier 1: `deterministic.py` -/

/-- Required input columns of Tier 1 (`deterministic.py` line 31). -/
def requiredColsTier1 : List String := ["composite_key", "area_sqm"]

/-- The column loop of `tier1_deterministic_match` lines 32-36: raise unless
every required column is present in both frames. -/
def tier1_schema_check (ocols tcols : List String) : Except String Unit :=
  if requiredColsTier1.all (fun c => ocols.contains c && tcols.contains c) then
    Except.ok ()
  else
    Except.error "Missing required column"

/-- Models `owners['owner_id'] = range(len(owners))` when the column is absent
(lines 43-44); otherwise the frame is untouched. -/
def withOwnerIds (f : Frame ORow) : Frame ORow :=
  if f.cols.contains "owner_id" then f
  else ⟨f.cols ++ ["owner_id"], f.rows.enum.map fun p => { p.2 with owner_id := p.1 }⟩

/-- Models `transactions['txn_id'] = range(len(transactions))` when absent
(lines 45-46). -/
def withTxnIds (f : Frame TRow) : Frame TRow :=
  if f.cols.contains "txn_id" then f
  else ⟨f.cols ++ ["txn_id"], f.rows.enum.map fun p => { p.2 with txn_id := p.1 }⟩

/-- Models `pd.merge(owners, transactions, on='composite_key', how='inner')`
(lines 50-56): every owner row paired with every transaction row of equal
composite key, in left-row-major stable order. -/
def joinPairs (os : List ORow) (ts : List TRow) : List (ORow × TRow) :=
  os.flatMap fun w => (ts.filter fun x => x.composite_key = w.composite_key).map fun x => (w, x)

/-- Models `abs(area_owner - area_txn) / area_owner.replace(0, 1)` (lines 63-65). -/
def area_diff_pct (ao atx : ℚ) : ℚ :=
  |ao - atx| / (if ao = 0 then 1 else ao)

/-- The area-tolerance filter `area_diff_pct <= area_tolerance_pct` (line 68). -/
def tier1_area_ok (tol : ℚ) (p : ORow × TRow) : Bool :=
  area_diff_pct p.1.area_sqm p.2.area_sqm ≤ tol

/-- One row of the Tier 1 matches frame (lines 75-84). -/
def tier1_row (p : ORow × TRow) : MRow :=
  { owner_id := p.1.owner_id
    txn_id := p.2.txn_id
    match_confidence := 1
    confidence_bucket := "High"
    review_status := "auto_approved"
    match_method := "tier1_deterministic" }

/-- Embeds `tier1_deterministic_match`, with the objects the two input references
point to tracked explicitly: position 0 of each returned heap is the caller's
frame, position 1 the local copy (`owners = owners_df.copy()`, line 39) that
receives the generated-id column write.  All later stages build fresh
objects. -/
def tier1_exec (o : Frame ORow) (t : Frame TRow) (tol : ℚ) :
    List (Frame ORow) × List (Frame TRow) ×
      Except String (List MRow × Frame ORow × Frame TRow) :=
  match tier1_schema_check o.cols t.cols with
  | Except.error e => ([o], [t], Except.error e)
  | Except.ok _ =>
    -- owners = owners_df.copy(); transactions = transactions_df.copy()
    let oheap := [o] ++ [([o].getD 0 emptyOFrame)]
    let theap := [t] ++ [([t].getD 0 emptyTFrame)]
    -- the generated-id writes target the copies at index 1 only
    let oheap := oheap.set 1 (withOwnerIds (oheap.getD 1 emptyOFrame))
    let theap := theap.set 1 (withTxnIds (theap.getD 1 emptyTFrame))
    let owners := oheap.getD 1 emptyOFrame
    let transactions := theap.getD 1 emptyTFrame
    -- pd.merge on composite_key, then the area filter (a fresh frame;
    -- `matches['area_diff_pct'] = ...` writes to that fresh object)
    let kept := (joinPairs owners.rows transactions.rows).filter (tier1_area_ok tol)
    let final_matches := kept.map tier1_row
    let matched_owner_ids := kept.map fun p => p.1.owner_id
    let matched_txn_ids := kept.map fun p => p.2.txn_id
    let unmatched_owners : Frame ORow :=
      ⟨owners.cols, owners.rows.filter fun w => !(matched_owner_ids.contains w.owner_id)⟩
    let unmatched_transactions : Frame TRow :=
      ⟨transactions.cols, transactions.rows.filter fun x => !(matched_txn_ids.contains x.txn_id)⟩
    (oheap, theap, Except.ok (final_matches, unmatched_owners, unmatched_transactions))

/-- The return value of `tier1_deterministic_match`. -/
def tier1_deterministic_match (o : Frame ORow) (t : Frame TRow) (tol : ℚ) :
    Except String (List MRow × Frame ORow × Frame TRow) :=
  (tier1_exec o t tol).2.2

/-! ### Tier 2: `fuzzy.py`

The string-similarity primitive (`rapidfuzz.fuzz.token_set_ratio`) is a
third-party collaborator that the design treats as pluggable, specified only
by its interface (a percentage in `[0, 100]`); the Tier 2 definitions take it
as a parameter `sim`.  `token_set_ratio_model` below is a concrete instance
for evaluating on concrete inputs. -/

/-- Modelled from the spec: the string-similarity primitive is an external
collaborator ("a normalized string-similarity measure (e.g., token-set
overlap)"), specified only to return a percentage in `[0, 100]` with identical
strings fully similar; modelled as exact-equality similarity. -/
def token_set_ratio_model (a b : String) : ℚ :=
  if a = b then 100 else 0

/-- Embeds `calculate_building_similarity` (`fuzzy.py` lines 14-36): strip both
names, score 0 if either is empty, else `token_set_ratio / 100`. -/
def calculate_building_similarity (sim : String → String → ℚ) (b1 b2 : String) : ℚ :=
  let s1 := pyStrip b1
  let s2 := pyStrip b2
  if s1 = "" ∨ s2 = "" then 0 else sim s1 s2 / 100

/-- Embeds `calculate_unit_match` (lines 39-56): 1.0 on exact equality of the
stripped unit strings, else 0.0. -/
def calculate_unit_match (u1 u2 : String) : ℚ :=
  if pyStrip u1 = pyStrip u2 then 1 else 0

/-- Embeds `calculate_area_score` (lines 59-77): 0 when the owner area is zero,
else linear decay from 1 at 0% difference to 0 at 2%. -/
def calculate_area_score (a1 a2 : ℚ) : ℚ :=
  if a1 = 0 then 0
  else max 0 (1 - (|a1 - a2| / a1) / (2/100))

/-- Embeds `calculate_fuzzy_score` (lines 80-107) with the default weights
`{'building': 0.5, 'unit': 0.3, 'area': 0.2}`, rounded to 4 decimals. -/
def calculate_fuzzy_score (b u a : ℚ) : ℚ :=
  pyRoundTo 4 ((1/2) * b + (3/10) * u + (1/5) * a)

/-- Embeds `assign_confidence_bucket` (lines 110-127). -/
def assign_confidence_bucket (score : ℚ) : String :=
  if (9/10 : ℚ) ≤ score then "High"
  else if (85/100 : ℚ) ≤ score then "Medium"
  else if (3/4 : ℚ) ≤ score then "Low"
  else "Reject"

/-- Required input columns of Tier 2 (`fuzzy.py` line 155). -/
def requiredColsTier2 : List String :=
  ["project_clean", "building_clean", "unit_no", "area_sqm"]

/-- The column loop of `tier2_fuzzy_match` lines 156-160. -/
def tier2_schema_check (ocols tcols : List String) : Except String Unit :=
  if requiredColsTier2.all (fun c => ocols.contains c && tcols.contains c) then
    Except.ok ()
  else
    Except.error "Missing required column"

/-- The candidate dict built at lines 212-221 for one owner × transaction
pair (component-score columns omitted; `review_status` and `match_method`
are filled in by `tier2_finalize` below, as at lines 236-238). -/
def tier2_candidate (sim : String → String → ℚ) (w : ORow) (x : TRow) : MRow :=
  let building_sim := calculate_building_similarity sim w.building_clean x.building_clean
  let unit_match := calculate_unit_match w.unit_no x.unit_no
  let area_score := calculate_area_score w.area_sqm x.area_sqm
  let fuzzy_score := calculate_fuzzy_score building_sim unit_match area_score
  { owner_id := w.owner_id
    txn_id := x.txn_id
    match_confidence := fuzzy_score
    confidence_bucket := assign_confidence_bucket fuzzy_score
    review_status := ""
    match_method := "" }

/-- The inner loop over a project's transactions (lines 191-221): score each
pair and keep it when `fuzzy_score >= min_score`. -/
def ownerCandidates (sim : String → String → ℚ) (min_score : ℚ)
    (w : ORow) (ts : List TRow) : List MRow :=
  (ts.map (tier2_candidate sim w)).filter fun r => min_score ≤ r.match_confidence

/-- Insert into a score-descending list, after any earlier candidate of equal
score: the unique stable descending order, as produced by the stable Python
`list.sort(key=..., reverse=True)` at line 225. -/
def insertDesc (x : MRow) : List MRow → List MRow
  | [] => [x]
  | y :: ys =>
    if y.match_confidence ≤ x.match_confidence then x :: y :: ys
    else y :: insertDesc x ys

/-- Stable descending sort by `match_confidence` (line 225). -/
def sortCandidatesDesc : List MRow → List MRow
  | [] => []
  | x :: xs => insertDesc x (sortCandidatesDesc xs)

/-- Lines 223-226: sort one owner's candidates by score descending (stable)
and keep the first `max_candidates_per_owner`. -/
def ownerCandidateList (sim : String → String → ℚ) (min_score : ℚ) (maxC : Nat)
    (w : ORow) (ts : List TRow) : List MRow :=
  (sortCandidatesDesc (ownerCandidates sim min_score w ts)).take maxC

/-- Distinct `project_clean` keys of the owner rows in ascending order:
the iteration order of `owners.groupby('project_clean')` (line 177). -/
def insertStrAsc (x : String) : List String → List String
  | [] => [x]
  | y :: ys => if x < y then x :: y :: ys else y :: insertStrAsc x ys

def sortStrAsc : List String → List String
  | [] => []
  | x :: xs => insertStrAsc x (sortStrAsc xs)

def projectsSorted (os : List ORow) : List String :=
  sortStrAsc (os.map (fun w => w.project_clean)).dedup

/-- The blocking loop of lines 180-226: for each owner project group (in
sorted key order), skip it when no transaction shares the project, otherwise
emit every owner's sorted, truncated candidate list. -/
def tier2_all_candidates (sim : String → String → ℚ) (os : List ORow) (ts : List TRow)
    (min_score : ℚ) (maxC : Nat) : List MRow :=
  (projectsSorted os).flatMap fun p =>
    let project_txns := ts.filter fun x => x.project_clean = p
    if project_txns.isEmpty then []
    else
      (os.filter fun w => w.project_clean = p).flatMap fun w =>
        ownerCandidateList sim min_score maxC w project_txns

/-- Lines 236-238: `review_status = 'pending_review'`,
`match_method = 'tier2_fuzzy'` on the collected candidate frame
(`pipeline_run_id`, a timestamp, is omitted). -/
def tier2_finalize (rows : List MRow) : List MRow :=
  rows.map fun r =>
    { r with review_status := "pending_review", match_method := "tier2_fuzzy" }

/-- Embeds `tier2_fuzzy_match` (lines 130-253) with the caller-visible input objects
tracked as in `tier1_exec`: heap position 0 is the caller's frame, position 1
the local copy (lines 163-164) that receives the generated-id writes. -/
def tier2_exec (sim : String → String → ℚ) (o : Frame ORow) (t : Frame TRow)
    (min_score : ℚ) (maxC : Nat) :
    List (Frame ORow) × List (Frame TRow) ×
      Except String (List MRow × Frame ORow × Frame TRow) :=
  if o.rows.isEmpty || t.rows.isEmpty then
    -- lines 150-152: return the original frames untouched
    ([o], [t], Except.ok ([], o, t))
  else
    match tier2_schema_check o.cols t.cols with
    | Except.error e => ([o], [t], Except.error e)
    | Except.ok _ =>
      let oheap := [o] ++ [([o].getD 0 emptyOFrame)]
      let theap := [t] ++ [([t].getD 0 emptyTFrame)]
      let oheap := oheap.set 1 (withOwnerIds (oheap.getD 1 emptyOFrame))
      let theap := theap.set 1 (withTxnIds (theap.getD 1 emptyTFrame))
      let owners := oheap.getD 1 emptyOFrame
      let transactions := theap.getD 1 emptyTFrame
      let all_matches := tier2_all_candidates sim owners.rows transactions.rows min_score maxC
      if all_matches.isEmpty then
        -- lines 228-230: return the copies
        (oheap, theap, Except.ok ([], owners, transactions))
      else
        let matches_df := tier2_finalize all_matches
        -- line 241: accepted = buckets High or Medium (Low goes to review)
        let accepted := matches_df.filter fun r =>
          r.confidence_bucket = "High" ∨ r.confidence_bucket = "Medium"
        let matched_owner_ids := accepted.map fun r => r.owner_id
        let matched_txn_ids := accepted.map fun r => r.txn_id
        let unmatched_owners : Frame ORow :=
          ⟨owners.cols, owners.rows.filter fun w => !(matched_owner_ids.contains w.owner_id)⟩
        let unmatched_transactions : Frame TRow :=
          ⟨transactions.cols, transactions.rows.filter fun x => !(matched_txn_ids.contains x.txn_id)⟩
        (oheap, theap, Except.ok (accepted, unmatched_owners, unmatched_transactions))

/-- The return value of `tier2_fuzzy_match`. -/
def tier2_fuzzy_match (sim : String → String → ℚ) (o : Frame ORow) (t : Frame TRow)
    (min_score : ℚ) (maxC : Nat) :
    Except String (List MRow × Frame ORow × Frame TRow) :=
  (tier2_exec sim o t min_score maxC).2.2

/-! ### Tier 3: `review_helpers.py`, `merge_review_decisions` (lines 128-178) -/

/-- The merge key of lines 156-161: a decision joins a match row when both
`owner_id` and `txn_id` agree. -/
def decKeyEq (d : Decision) (m : MRow) : Bool :=
  d.owner_id == m.owner_id && d.txn_id == m.txn_id

/-- The left merge of line 156-161 for one match row: a row per matching
decision carrying that decision's `review_status` (the suffixed
`review_status_review` column, already folded into `review_status` as by
lines 164-165), or the row unchanged when no decision matches. -/
def applyDecisionJoin (ds : List Decision) (m : MRow) : List MRow :=
  match ds.filter fun d => decKeyEq d m with
  | [] => [m]
  | matched => matched.map fun d => { m with review_status := d.review_status }

/-- Lines 168-170: every row whose (updated) `review_status` is `approved`
gets `confidence_bucket = 'High'` and `match_confidence = 0.95`. -/
def promoteApproved (m : MRow) : MRow :=
  if m.review_status = "approved" then
    { m with confidence_bucket := "High", match_confidence := 19/20 }
  else m

/-- Embeds `merge_review_decisions`: empty-input guards (lines 144-150), the left
merge with status update, the approved promotion, then removal of rejected
rows (lines 173-174). -/
def merge_review_decisions (ms : List MRow) (ds : List Decision) : List MRow :=
  if ms.isEmpty then ms
  else if ds.isEmpty then ms
  else
    (((ms.flatMap (applyDecisionJoin ds)).map promoteApproved).filter
      fun m => !(m.review_status == "rejected"))

/-- Column list of the merged frame at lines 156-161: pandas appends the
decisions' non-key columns `review_status` and `reviewer_notes`, suffixing
each with `_review` when it collides with an existing left column
(`suffixes=('', '_review')`). -/
def mergeSuffixCols (cols : List String) : List String :=
  cols ++ ["review_status", "reviewer_notes"].map fun c =>
    if cols.contains c then c ++ "_review" else c

/-- Embeds `merge_review_decisions` at the frame level, columns included.
The merge of lines 156-161 always adds the suffixed decision columns, and it
never drops them, so they stay in the returned frame.  When the left frame
already carries a `review_status_review` column (as the function's own output
does), the merge produces that label twice; `matches['review_status_review']`
at line 164 then yields a DataFrame instead of a Series and the `.loc`
assignment at line 165 raises — modelled as the error result.  The merged
column's per-row values are only read by the fold-in of lines 164-165 and
never surface later, so rows stay `MRow`; a frame whose rows are `MRow` has a
`review_status` column. -/
def merge_review_decisions_frame (mf : Frame MRow) (ds : List Decision) :
    Except String (Frame MRow) :=
  if mf.rows.isEmpty then Except.ok mf
  else if ds.isEmpty then Except.ok mf
  else if 1 < (mergeSuffixCols mf.cols).count "review_status_review" then
    Except.error "Cannot index with multidimensional key"
  else
    Except.ok ⟨mergeSuffixCols mf.cols, merge_review_decisions mf.rows ds⟩

/-! ### Pipeline: `pipeline.py`, `run_matching_pipeline` lines 63-90

File loading and preprocessing are abstracted: the pipeline core takes the
cleaned frames and the externally produced decision snapshot.  Tier 2 is the
`tier2_fuzzy_match` of `src/matching/fuzzy.py` (the module imported by the
pipeline under the same name).  Line 86-87: decisions are merged only when at
least one was loaded; line 90: `pd.concat([tier1_matches, tier2_matches])`. -/

def pipeline_combined (sim : String → String → ℚ) (o : Frame ORow) (t : Frame TRow)
    (decisions : List Decision) : Except String (List MRow) := do
  let (tier1_matches, unmatched_owners, unmatched_transactions) ←
    tier1_deterministic_match o t (1/100)
  let (tier2_matches, _, _) ←
    tier2_fuzzy_match sim unmatched_owners unmatched_transactions (3/4) 5
  let tier2_matches :=
    if decisions.length > 0 then merge_review_decisions tier2_matches decisions
    else tier2_matches
  return tier1_matches ++ tier2_matches

/-- The rows of a pipeline result (`[]` on a schema error). -/
def okRows (e : Except String (List MRow)) : List MRow :=
  match e with
  | Except.ok l => l
  | Except.error _ => []

/-- The matches component of a tier result (`[]` on a schema error). -/
def okMatches (e : Except String (List MRow × Frame ORow × Frame TRow)) : List MRow :=
  match e with
  | Except.ok v => v.1
  | Except.error _ => []

/-! ### Concrete frames used to evaluate the definitions -/

def colsO : List String :=
  ["composite_key", "area_sqm", "owner_id", "project_clean", "building_clean", "unit_no"]
def colsT : List String :=
  ["composite_key", "area_sqm", "txn_id", "project_clean", "building_clean", "unit_no"]

/-- One owner whose composite key joins the two transactions of `dupTxnsF`. -/
def dupOwnersF : Frame ORow := ⟨colsO, [⟨0, "k", 100, "p", "towera", "0001"⟩]⟩
def dupTxnsF : Frame TRow :=
  ⟨colsT, [⟨0, "k", 100, "p", "towera", "0001"⟩, ⟨1, "k", 100, "p", "towera", "0001"⟩]⟩

/-- An owner/transaction pair with `area_sqm = 0` on both sides. -/
def zeroOwnersF : Frame ORow := ⟨colsO, [⟨0, "k", 0, "p", "towera", "0001"⟩]⟩
def zeroTxnsF : Frame TRow := ⟨colsT, [⟨0, "k", 0, "p", "towera", "0001"⟩]⟩

/-- Column list of a Tier 2 fuzzy-match frame (`fuzzy.py` lines 212-238). -/
def revMatchCols : List String :=
  ["owner_id", "txn_id", "match_confidence", "confidence_bucket", "building_sim",
   "unit_match", "area_score", "project", "review_status", "pipeline_run_id",
   "match_method"]

/-- A one-candidate fuzzy-match frame and a decision set approving it. -/
def revMatchesF : Frame MRow :=
  ⟨revMatchCols, [⟨0, 7, 78/100, "Low", "pending_review", "tier2_fuzzy"⟩]⟩
def revDecisions : List Decision := [⟨0, 7, "approved", ""⟩]

/-- A Tier 2 owner and two transactions that score identically; the
transactions appear in input order `txn_id 7` before `txn_id 3`. -/
def tieOwner : ORow := ⟨0, "k", 100, "p", "towera", "0001"⟩
def tieTxn7 : TRow := ⟨7, "k2", 100, "p", "towera", "0001"⟩
def tieTxn3 : TRow := ⟨3, "k3", 100, "p", "towera", "0001"⟩

/-- The Tier 1 match rows contributed by one owner row: its key-equal
transactions, area-filtered, in input order. -/
def tier1PerOwner (ts : List TRow) (tol : ℚ) (w : ORow) : List MRow :=
  (((ts.filter fun x => x.composite_key = w.composite_key).map fun x => (w, x)).filter
    (tier1_area_ok tol)).map tier1_row

/-- The score-descending order relation on candidate rows. -/
def scoreGE (a b : MRow) : Prop := b.match_confidence ≤ a.match_confidence

/-- Distinctness of two decisions' `(owner_id, txn_id)` merge keys; the data
model allows at most one decision per candidate pair. -/
def decKeysDistinct (d1 d2 : Decision) : Prop :=
  d1.owner_id ≠ d2.owner_id ∨ d1.txn_id ≠ d2.txn_id

instance : DecidableRel decKeysDistinct := fun d1 d2 => by
  unfold decKeysDistinct
  infer_instance

/-- The effect of `merge_review_decisions` on one match row. -/
def mergeRow (ds : List Decision) (m : MRow) : List MRow :=
  ((applyDecisionJoin ds m).map promoteApproved).filter
    fun r => !(r.review_status == "rejected")

/-! ### General list lemmas -/

theorem filter_flatMap_eq {α β : Type} (l : List α) (f : α → List β) (p : β → Bool) :
    (l.flatMap f).filter p = l.flatMap fun a => (f a).filter p := by
  induction l with
  | nil => rfl
  | cons a l ih => simp [List.flatMap_cons, List.filter_append, ih]

theorem map_flatMap_eq {α β γ : Type} (l : List α) (f : α → List β) (g : β → γ) :
    (l.flatMap f).map g = l.flatMap fun a => (f a).map g := by
  induction l with
  | nil => rfl
  | cons a l ih => simp [List.flatMap_cons, ih]

theorem flatMap_id_of_eq_singleton {α : Type} (l : List α) (f : α → List α)
    (h : ∀ a ∈ l, f a = [a]) : l.flatMap f = l := by
  induction l with
  | nil => rfl
  | cons a l ih =>
    rw [List.flatMap_cons, h a (List.mem_cons_self a l),
      ih fun a ha => h a (List.mem_cons_of_mem _ ha)]
    rfl

theorem flatMap_eq_nil_of_forall {α β : Type} (l : List α) (f : α → List β)
    (h : ∀ a ∈ l, f a = []) : l.flatMap f = [] := by
  induction l with
  | nil => rfl
  | cons a l ih =>
    rw [List.flatMap_cons, h a (List.mem_cons_self a l),
      ih fun a ha => h a (List.mem_cons_of_mem _ ha)]
    rfl

/-! ### Sorting lemmas for the Tier 2 candidate order -/

theorem mem_insertDesc {x y : MRow} {l : List MRow} :
    y ∈ insertDesc x l ↔ y = x ∨ y ∈ l := by
  induction l with
  | nil => simp [insertDesc]
  | cons z l ih =>
    by_cases h : z.match_confidence ≤ x.match_confidence
    · simp [insertDesc, h]
    · simp [insertDesc, h, ih]
      tauto

theorem mem_sortCandidatesDesc {y : MRow} {l : List MRow} :
    y ∈ sortCandidatesDesc l ↔ y ∈ l := by
  induction l with
  | nil => simp [sortCandidatesDesc]
  | cons x l ih => simp [sortCandidatesDesc, mem_insertDesc, ih]

theorem pairwise_insertDesc {x : MRow} {l : List MRow} (h : l.Pairwise scoreGE) :
    (insertDesc x l).Pairwise scoreGE := by
  induction l with
  | nil => simp [insertDesc, List.pairwise_singleton]
  | cons y l ih =>
    rcases List.pairwise_cons.mp h with ⟨hy, hl⟩
    by_cases hc : y.match_confidence ≤ x.match_confidence
    · rw [insertDesc, if_pos hc]
      refine List.pairwise_cons.mpr ⟨?_, h⟩
      intro z hz
      rcases List.mem_cons.mp hz with rfl | hz
      · exact hc
      · exact le_trans (hy z hz) hc
    · rw [insertDesc, if_neg hc]
      refine List.pairwise_cons.mpr ⟨?_, ih hl⟩
      intro z hz
      rcases mem_insertDesc.mp hz with rfl | hz
      · exact le_of_not_le hc
      · exact hy z hz

theorem pairwise_sortCandidatesDesc (l : List MRow) :
    (sortCandidatesDesc l).Pairwise scoreGE := by
  induction l with
  | nil => exact List.Pairwise.nil
  | cons x l ih => exact pairwise_insertDesc ih

theorem filter_insertDesc_of_eq {x : MRow} {l : List MRow} {c : ℚ}
    (hx : x.match_confidence = c) :
    (insertDesc x l).filter (fun r => r.match_confidence == c) =
      x :: l.filter (fun r => r.match_confidence == c) := by
  induction l with
  | nil => simp [insertDesc, hx]
  | cons y l ih =>
    by_cases hc : y.match_confidence ≤ x.match_confidence
    · rw [insertDesc, if_pos hc, List.filter_cons_of_pos (by simpa using hx)]
    · have hyne : y.match_confidence ≠ c := by
        intro hyeq
        exact hc (le_of_eq (hyeq.trans hx.symm))
      rw [insertDesc, if_neg hc, List.filter_cons_of_neg (by simpa using hyne), ih,
        List.filter_cons_of_neg (by simpa using hyne)]

theorem filter_insertDesc_of_ne {x : MRow} {l : List MRow} {c : ℚ}
    (hx : ¬x.match_confidence = c) :
    (insertDesc x l).filter (fun r => r.match_confidence == c) =
      l.filter (fun r => r.match_confidence == c) := by
  induction l with
  | nil => simp [insertDesc, hx]
  | cons y l ih =>
    by_cases hc : y.match_confidence ≤ x.match_confidence
    · rw [insertDesc, if_pos hc, List.filter_cons_of_neg (by simpa using hx)]
    · rw [insertDesc, if_neg hc]
      by_cases hy : y.match_confidence = c
      · rw [List.filter_cons_of_pos (by simpa using hy), ih,
          List.filter_cons_of_pos (by simpa using hy)]
      · rw [List.filter_cons_of_neg (by simpa using hy), ih,
          List.filter_cons_of_neg (by simpa using hy)]

/-- Stability of the Tier 2 sort: candidates of any fixed score keep their
original relative (input) order. -/
theorem filter_sortCandidatesDesc (l : List MRow) (c : ℚ) :
    (sortCandidatesDesc l).filter (fun r => r.match_confidence == c) =
      l.filter (fun r => r.match_confidence == c) := by
  induction l with
  | nil => rfl
  | cons x l ih =>
    by_cases hx : x.match_confidence = c
    · rw [sortCandidatesDesc, filter_insertDesc_of_eq hx, ih,
        List.filter_cons_of_pos (by simpa using hx)]
    · rw [sortCandidatesDesc, filter_insertDesc_of_ne hx, ih,
        List.filter_cons_of_neg (by simpa using hx)]

theorem assign_confidence_bucket_ne_reject {s : ℚ} (h : (3/4 : ℚ) ≤ s) :
    assign_confidence_bucket s ≠ "Reject" := by
  unfold assign_confidence_bucket
  split_ifs <;> simp_all

theorem contains_true_iff {l : List String} {s : String} :
    l.contains s = true ↔ s ∈ l := by
  simp [List.contains, List.elem_iff]

theorem tier1_schema_check_isOk_iff (oc tc : List String) :
    (tier1_schema_check oc tc).isOk = true ↔
      ("composite_key" ∈ oc ∧ "area_sqm" ∈ oc ∧
       "composite_key" ∈ tc ∧ "area_sqm" ∈ tc) := by
  unfold tier1_schema_check requiredColsTier1
  split_ifs with h
  · simp only [List.all_cons, List.all_nil, Bool.and_true, Bool.and_eq_true,
      contains_true_iff] at h
    simp only [Except.isOk, Except.toBool, true_iff]
    tauto
  · simp only [List.all_cons, List.all_nil, Bool.and_true, Bool.and_eq_true,
      contains_true_iff] at h
    simp only [Except.isOk, Except.toBool, Bool.false_eq_true, false_iff]
    tauto

/-! ### Claim theorems -/

/-- C9: Tier 1 raises a schema-validation failure if and only if one of the
required columns `composite_key`, `area_sqm` is absent from the owners or the
transactions input; with both present in both inputs it returns a result. -/
theorem c9_schema_validation (o : Frame ORow) (t : Frame TRow) (tol : ℚ) :
    (tier1_deterministic_match o t tol).isOk = true ↔
      ("composite_key" ∈ o.cols ∧ "area_sqm" ∈ o.cols ∧
       "composite_key" ∈ t.cols ∧ "area_sqm" ∈ t.cols) := by
  rw [← tier1_schema_check_isOk_iff o.cols t.cols]
  unfold tier1_deterministic_match tier1_exec
  cases hc : tier1_schema_check o.cols t.cols with
  | error e => simp [hc, Except.isOk, Except.toBool]
  | ok u => cases u; simp [hc, Except.isOk, Except.toBool]

/-- C6: `assign_confidence_bucket` matches the documented thresholds exactly
at the boundaries, every Tier 2 candidate carries the bucket of its emitted
(rounded) score, and with the default floor `min_score = 0.75` no candidate
scores below 0.75 or is bucketed `Reject`. -/
theorem c6_confidence_buckets :
    (∀ s : ℚ,
      (assign_confidence_bucket s = "High" ↔ (9/10 : ℚ) ≤ s) ∧
      (assign_confidence_bucket s = "Medium" ↔ (85/100 : ℚ) ≤ s ∧ s < 9/10) ∧
      (assign_confidence_bucket s = "Low" ↔ (3/4 : ℚ) ≤ s ∧ s < 85/100) ∧
      (assign_confidence_bucket s = "Reject" ↔ s < 3/4)) ∧
    (∀ (sim : String → String → ℚ) (os : List ORow) (ts : List TRow) (maxC : Nat)
       (r : MRow), r ∈ tier2_all_candidates sim os ts (3/4) maxC →
        r.confidence_bucket = assign_confidence_bucket r.match_confidence ∧
        (3/4 : ℚ) ≤ r.match_confidence ∧ r.confidence_bucket ≠ "Reject") := by
  constructor
  · intro s
    unfold assign_confidence_bucket
    refine ⟨?_, ?_, ?_, ?_⟩ <;> split_ifs with h1 h2 h3 <;>
      simp_all <;> intros <;> linarith
  · intro sim os ts maxC r hr
    rcases List.mem_flatMap.mp hr with ⟨p, _, hp⟩
    have hr2 : r ∈ (os.filter fun w => w.project_clean = p).flatMap fun w =>
        ownerCandidateList sim (3/4) maxC w (ts.filter fun x => x.project_clean = p) := by
      by_cases he : (ts.filter fun x => x.project_clean = p).isEmpty <;> simp_all
    rcases List.mem_flatMap.mp hr2 with ⟨w, _, hw⟩
    have hr3 : r ∈ ownerCandidates sim (3/4) w (ts.filter fun x => x.project_clean = p) :=
      mem_sortCandidatesDesc.mp (List.take_subset _ _ hw)
    rcases List.mem_filter.mp hr3 with ⟨hmem, hge⟩
    have hge : (3/4 : ℚ) ≤ r.match_confidence := by simpa using hge
    rcases List.mem_map.mp hmem with ⟨x, _, hx⟩
    have hbucket : r.confidence_bucket = assign_confidence_bucket r.match_confidence := by
      subst hx; rfl
    exact ⟨hbucket, hge, hbucket ▸ assign_confidence_bucket_ne_reject hge⟩

/-- Witness for C6 at a concrete candidate: the single candidate emitted for
`tieOwner` against `tieTxn7` scores at least 0.75 and is not `Reject`. -/
theorem c6_confidence_buckets_witness :
    (3/4 : ℚ) ≤ (tier2_candidate token_set_ratio_model tieOwner tieTxn7).match_confidence ∧
    (tier2_candidate token_set_ratio_model tieOwner tieTxn7).confidence_bucket ≠ "Reject" := by
  have h := c6_confidence_buckets.2 token_set_ratio_model [tieOwner] [tieTxn7] 5
    (tier2_candidate token_set_ratio_model tieOwner tieTxn7) (by decide)
  exact ⟨h.2.1, h.2.2⟩

/-- C7 counterexample: for `tieOwner`, the two equal-score candidates are
emitted in input order `txn_id 7` before `txn_id 3` — not by lowest
`txn_id`. -/
theorem c7_counterexample :
    ((tier2_all_candidates token_set_ratio_model [tieOwner] [tieTxn7, tieTxn3]
        (3/4) 5).map fun r => r.txn_id) = [7, 3] ∧
    ((tier2_all_candidates token_set_ratio_model [tieOwner] [tieTxn7, tieTxn3]
        (3/4) 5).map fun r => r.match_confidence) = [1, 1] := by
  decide

/-- C7 as amended: per owner the emitted candidate list contains at most
`max_candidates_per_owner` candidates and is sorted by score descending, and
the sort is stable — equal-score candidates keep the transactions' input
order (rather than being reordered by lowest `txn_id`). -/
theorem c7_candidate_order (sim : String → String → ℚ) (min_score : ℚ) (maxC : Nat)
    (w : ORow) (ts : List TRow) :
    (ownerCandidateList sim min_score maxC w ts).length ≤ maxC ∧
    (ownerCandidateList sim min_score maxC w ts).Pairwise scoreGE ∧
    (∀ c : ℚ, (sortCandidatesDesc (ownerCandidates sim min_score w ts)).filter
        (fun r => r.match_confidence == c) =
      (ownerCandidates sim min_score w ts).filter (fun r => r.match_confidence == c)) := by
  refine ⟨?_, ?_, fun c => filter_sortCandidatesDesc _ c⟩
  · unfold ownerCandidateList
    rw [List.length_take]
    exact min_le_left _ _
  · exact (pairwise_sortCandidatesDesc _).sublist (List.take_sublist _ _)

/-- C10: neither Tier 1 nor Tier 2 matching mutates its inputs — after either
run, the caller-visible owner and transaction frame objects (heap position 0)
still hold exactly the input data; generated ids and all derived columns go
to the internal copies. -/
theorem c10_inputs_unchanged (o : Frame ORow) (t : Frame TRow) (tol : ℚ)
    (sim : String → String → ℚ) (min_score : ℚ) (maxC : Nat) :
    (tier1_exec o t tol).1.getD 0 emptyOFrame = o ∧
    ((tier1_exec o t tol).2.1.getD 0 emptyTFrame = t) ∧
    (tier2_exec sim o t min_score maxC).1.getD 0 emptyOFrame = o ∧
    ((tier2_exec sim o t min_score maxC).2.1.getD 0 emptyTFrame = t) := by
  refine ⟨?_, ?_, ?_, ?_⟩
  · unfold tier1_exec
    cases tier1_schema_check o.cols t.cols <;> simp
  · unfold tier1_exec
    cases tier1_schema_check o.cols t.cols <;> simp
  · unfold tier2_exec
    by_cases hemp : (o.rows.isEmpty || t.rows.isEmpty) = true
    · simp [hemp]
    · simp only [hemp]
      cases tier2_schema_check o.cols t.cols with
      | error e => simp
      | ok u => split_ifs <;> simp
  · unfold tier2_exec
    by_cases hemp : (o.rows.isEmpty || t.rows.isEmpty) = true
    · simp [hemp]
    · simp only [hemp]
      cases tier2_schema_check o.cols t.cols with
      | error e => simp
      | ok u => split_ifs <;> simp

/-- C2 counterexample: the single owner of `dupOwnersF` joins both
transactions of `dupTxnsF` and both pairs are kept, so `owner_id 0` appears
twice in the Tier 1 match output (no keep-first deduplication happens). -/
theorem c2_counterexample :
    (okMatches (tier1_deterministic_match dupOwnersF dupTxnsF (1/100))).countP
      (fun r => r.owner_id == 0) = 2 := by
  decide

/-- C3 counterexample: an owner row with `area_sqm = 0` joined to a
transaction with `area_sqm = 0` is kept by Tier 1 (the code divides by
`area_owner.replace(0, 1)` instead of requiring `area_owner > 0`), so a pair
with `area_owner = 0` does appear in the Tier 1 matches. -/
theorem c3_counterexample :
    okMatches (tier1_deterministic_match zeroOwnersF zeroTxnsF (1/100)) =
      [⟨0, 0, 1, "High", "auto_approved", "tier1_deterministic"⟩] := by
  decide

/-- C1 counterexample: on `dupOwnersF`/`dupTxnsF` the pipeline's final
combined match set contains two accepted (non-Reject, non-rejected) matches
for `owner_id 0`; no deduplication or violation detection intervenes. -/
theorem c1_counterexample :
    (okRows (pipeline_combined token_set_ratio_model dupOwnersF dupTxnsF [])).countP
      (fun r => r.owner_id == 0 && !(r.confidence_bucket == "Reject") &&
        !(r.review_status == "rejected")) = 2 := by
  decide

/-- C8 counterexample: `extract_unit_number "abc"` returns `"abc"`, which is
neither empty nor a zero-padded numeric string; and `normalize_area` of the
raw value `-50` is `-4.65 < 0`. -/
theorem c8_counterexample :
    extract_unit_number "abc" = "abc" ∧
    ¬(extract_unit_number "abc" = "" ∨
      ((extract_unit_number "abc").toList.all Char.isDigit = true ∧
        4 ≤ (extract_unit_number "abc").length)) ∧
    normalize_area (some (-50)) < 0 := by
  refine ⟨by decide, by decide, by decide⟩

/-! ### Tier 1 per-owner decomposition -/

theorem tier1_matches_of_ok {o : Frame ORow} {t : Frame TRow} {tol : ℚ}
    {m : List MRow} {uo : Frame ORow} {ut : Frame TRow}
    (h : tier1_deterministic_match o t tol = Except.ok (m, uo, ut)) :
    m = ((joinPairs (withOwnerIds o).rows (withTxnIds t).rows).filter
          (tier1_area_ok tol)).map tier1_row := by
  unfold tier1_deterministic_match tier1_exec at h
  cases hc : tier1_schema_check o.cols t.cols with
  | error e => rw [hc] at h; simp at h
  | ok u =>
    rw [hc] at h
    simp only [List.getD, List.cons_append, List.nil_append, List.set,
      List.getElem?_cons_zero, Option.getD_some, Except.ok.injEq, Prod.mk.injEq] at h
    exact h.1.symm

theorem tier1_matches_flatMap (os : List ORow) (ts : List TRow) (tol : ℚ) :
    ((joinPairs os ts).filter (tier1_area_ok tol)).map tier1_row =
      os.flatMap (tier1PerOwner ts tol) := by
  unfold joinPairs tier1PerOwner
  rw [filter_flatMap_eq, map_flatMap_eq]

theorem tier1PerOwner_eq (ts : List TRow) (tol : ℚ) (w : ORow) :
    tier1PerOwner ts tol w =
      (ts.filter fun x =>
          x.composite_key = w.composite_key ∧
          area_diff_pct w.area_sqm x.area_sqm ≤ tol).map fun x => tier1_row (w, x) := by
  unfold tier1PerOwner
  rw [List.filter_map, List.map_map, List.filter_filter]
  refine congrArg _ (List.filter_congr fun x _ => ?_)
  simp [tier1_area_ok, Function.comp, Bool.and_comm]

theorem tier1PerOwner_owner_id {ts : List TRow} {tol : ℚ} {w : ORow} {r : MRow}
    (hr : r ∈ tier1PerOwner ts tol w) : r.owner_id = w.owner_id := by
  rw [tier1PerOwner_eq] at hr
  rcases List.mem_map.mp hr with ⟨x, _, rfl⟩
  rfl

theorem flatMap_filter_owner (os : List ORow) (g : ORow → List MRow) (k : Nat)
    (hall : ∀ w2 ∈ os, ∀ r ∈ g w2, r.owner_id = w2.owner_id)
    (hnd : (os.map fun w => w.owner_id).Nodup)
    (w : ORow) (hw : w ∈ os) (hk : w.owner_id = k) :
    (os.flatMap g).filter (fun r => r.owner_id == k) = g w := by
  induction os with
  | nil => cases hw
  | cons a os ih =>
    rw [List.map_cons, List.nodup_cons] at hnd
    rw [List.flatMap_cons, List.filter_append]
    rcases List.mem_cons.mp hw with rfl | hw2
    · have h1 : (g w).filter (fun r => r.owner_id == k) = g w :=
        List.filter_eq_self.mpr fun r hr => by
          simp [hall w (List.mem_cons_self w os) r hr, hk]
      have h2 : (os.flatMap g).filter (fun r => r.owner_id == k) = [] := by
        rw [filter_flatMap_eq]
        apply flatMap_eq_nil_of_forall
        intro b hb
        apply List.filter_eq_nil_iff.mpr
        intro r hr
        have hid := hall b (List.mem_cons_of_mem _ hb) r hr
        have hbmem : b.owner_id ∈ List.map (fun w2 => w2.owner_id) os := by
          simpa using List.mem_map_of_mem (fun w2 => w2.owner_id) hb
        have hbne : b.owner_id ≠ k := by
          intro hbk
          apply hnd.1
          rw [hk, ← hbk]
          exact hbmem
        simp [hid, hbne]
      rw [h1, h2, List.append_nil]
    · have hwmem : w.owner_id ∈ List.map (fun w2 => w2.owner_id) os := by
        simpa using List.mem_map_of_mem (fun w2 => w2.owner_id) hw2
      have hane : ¬(a.owner_id = k) := by
        intro hak
        apply hnd.1
        rw [hak, ← hk]
        exact hwmem
      have h1 : (g a).filter (fun r => r.owner_id == k) = [] :=
        List.filter_eq_nil_iff.mpr fun r hr => by
          simp [hall a (List.mem_cons_self a os) r hr, hane]
      rw [h1, List.nil_append]
      exact ih (fun w2 hw2b => hall w2 (List.mem_cons_of_mem _ hw2b)) hnd.2 hw2

/-- The per-owner slice of the Tier 1 output: the rows carrying an owner's id
are exactly its key-equal, area-tolerant transactions in stable input
order. -/
theorem tier1_per_owner_slice (o : Frame ORow) (t : Frame TRow) (tol : ℚ)
    (m : List MRow) (uo : Frame ORow) (ut : Frame TRow)
    (h : tier1_deterministic_match o t tol = Except.ok (m, uo, ut))
    (hnd : ((withOwnerIds o).rows.map fun w => w.owner_id).Nodup)
    (w : ORow) (hw : w ∈ (withOwnerIds o).rows) :
    m.filter (fun r => r.owner_id == w.owner_id) =
      ((withTxnIds t).rows.filter fun x =>
          x.composite_key = w.composite_key ∧
          area_diff_pct w.area_sqm x.area_sqm ≤ tol).map fun x => tier1_row (w, x) := by
  rw [tier1_matches_of_ok h, tier1_matches_flatMap,
    flatMap_filter_owner _ _ _ (fun w2 _ r hr => tier1PerOwner_owner_id hr) hnd w hw rfl,
    tier1PerOwner_eq]

/-- C2 as amended: when a Tier 1 owner joins several transactions, every
joined pair within the area tolerance is kept (`owner_id` can repeat): the
Tier 1 rows carrying `w.owner_id` are exactly the key-equal, area-tolerant
transactions of `w` in stable input order, so the result is reproducible from
the inputs alone. -/
theorem c2_tier1_keeps_all_joined (o : Frame ORow) (t : Frame TRow) (tol : ℚ)
    (m : List MRow) (uo : Frame ORow) (ut : Frame TRow)
    (h : tier1_deterministic_match o t tol = Except.ok (m, uo, ut))
    (hnd : ((withOwnerIds o).rows.map fun w => w.owner_id).Nodup)
    (w : ORow) (hw : w ∈ (withOwnerIds o).rows) :
    m.filter (fun r => r.owner_id == w.owner_id) =
      ((withTxnIds t).rows.filter fun x =>
          x.composite_key = w.composite_key ∧
          area_diff_pct w.area_sqm x.area_sqm ≤ tol).map fun x => tier1_row (w, x) :=
  tier1_per_owner_slice o t tol m uo ut h hnd w hw

/-- C3 as amended: a joined pair is kept by Tier 1 if and only if
`|area_owner − area_txn| / (area_owner if area_owner ≠ 0 else 1)` is at most
the tolerance — in particular pairs with `area_owner = 0` are kept whenever
`|area_txn| ≤ tolerance`, not excluded. -/
theorem c3_area_tolerance_iff (o : Frame ORow) (t : Frame TRow) (tol : ℚ)
    (m : List MRow) (uo : Frame ORow) (ut : Frame TRow)
    (h : tier1_deterministic_match o t tol = Except.ok (m, uo, ut))
    (hndo : ((withOwnerIds o).rows.map fun w => w.owner_id).Nodup)
    (hndt : ((withTxnIds t).rows.map fun x => x.txn_id).Nodup)
    (w : ORow) (hw : w ∈ (withOwnerIds o).rows)
    (x : TRow) (hx : x ∈ (withTxnIds t).rows) :
    (∃ r ∈ m, r.owner_id = w.owner_id ∧ r.txn_id = x.txn_id) ↔
      (x.composite_key = w.composite_key ∧
        area_diff_pct w.area_sqm x.area_sqm ≤ tol) := by
  have hslice := tier1_per_owner_slice o t tol m uo ut h hndo w hw
  constructor
  · rintro ⟨r, hrm, hro, hrt⟩
    have hrf : r ∈ m.filter (fun r2 => r2.owner_id == w.owner_id) :=
      List.mem_filter.mpr ⟨hrm, by simp [hro]⟩
    rw [hslice] at hrf
    rcases List.mem_map.mp hrf with ⟨x2, hx2f, rfl⟩
    rcases List.mem_filter.mp hx2f with ⟨hx2t, hx2p⟩
    have hx2eq : x2 = x :=
      List.inj_on_of_nodup_map hndt hx2t hx hrt
    subst hx2eq
    exact of_decide_eq_true hx2p
  · intro hcond
    have hxf : x ∈ (withTxnIds t).rows.filter fun x2 =>
        x2.composite_key = w.composite_key ∧
        area_diff_pct w.area_sqm x2.area_sqm ≤ tol :=
      List.mem_filter.mpr ⟨hx, by simpa using hcond⟩
    refine ⟨tier1_row (w, x), ?_, rfl, rfl⟩
    have : tier1_row (w, x) ∈ m.filter (fun r2 => r2.owner_id == w.owner_id) := by
      rw [hslice]
      exact List.mem_map_of_mem _ hxf
    exact (List.mem_filter.mp this).1

/-! ### Review-reconciler lemmas

The data model gives each candidate at most one review decision
(`MatchCandidate 0..1 ReviewDecision`), so a decision set carries pairwise
distinct `(owner_id, txn_id)` keys. -/

theorem flatMap_congr_mem {α β : Type} {l : List α} {f g : α → List β}
    (h : ∀ a ∈ l, f a = g a) : l.flatMap f = l.flatMap g := by
  induction l with
  | nil => rfl
  | cons a l ih =>
    simp only [List.flatMap_cons, h a (List.mem_cons_self a l)]
    rw [ih fun a ha => h a (List.mem_cons_of_mem _ ha)]

theorem merge_eq_flatMap {ms : List MRow} {ds : List Decision}
    (hms : ms ≠ []) (hds : ds ≠ []) :
    merge_review_decisions ms ds = ms.flatMap (mergeRow ds) := by
  unfold merge_review_decisions mergeRow
  rw [if_neg (by simpa using hms), if_neg (by simpa using hds),
    map_flatMap_eq, filter_flatMap_eq]

theorem merge_nil_decisions (ms : List MRow) : merge_review_decisions ms [] = ms := by
  unfold merge_review_decisions
  split_ifs with h1 h2
  · rfl
  · rfl
  · exact absurd rfl h2

theorem decKeyEq_iff {d : Decision} {m : MRow} :
    decKeyEq d m = true ↔ d.owner_id = m.owner_id ∧ d.txn_id = m.txn_id := by
  simp [decKeyEq]

theorem promoteApproved_owner (m : MRow) : (promoteApproved m).owner_id = m.owner_id := by
  unfold promoteApproved; split_ifs <;> rfl

theorem promoteApproved_txn (m : MRow) : (promoteApproved m).txn_id = m.txn_id := by
  unfold promoteApproved; split_ifs <;> rfl

theorem promoteApproved_status (m : MRow) :
    (promoteApproved m).review_status = m.review_status := by
  unfold promoteApproved; split_ifs <;> rfl

theorem promoteApproved_idem (m : MRow) :
    promoteApproved (promoteApproved m) = promoteApproved m := by
  unfold promoteApproved
  by_cases h : m.review_status = "approved" <;> simp [h]

theorem MRow_set_status_self {m : MRow} {s : String} (h : m.review_status = s) :
    ({ m with review_status := s } : MRow) = m := by
  cases m
  cases h
  rfl

theorem applyDecisionJoin_of_filter_nil {ds : List Decision} {m : MRow}
    (h : (ds.filter fun d2 => decKeyEq d2 m) = []) :
    applyDecisionJoin ds m = [m] := by
  unfold applyDecisionJoin
  rw [h]

theorem applyDecisionJoin_of_filter_single {ds : List Decision} {m : MRow} {d : Decision}
    (h : (ds.filter fun d2 => decKeyEq d2 m) = [d]) :
    applyDecisionJoin ds m = [{ m with review_status := d.review_status }] := by
  unfold applyDecisionJoin
  rw [h]
  rfl

theorem applyDecisionJoin_mem {ds : List Decision} {m r : MRow}
    (hr : r ∈ applyDecisionJoin ds m) :
    (∃ d ∈ ds, decKeyEq d m = true ∧ r = { m with review_status := d.review_status }) ∨
      ((ds.filter fun d2 => decKeyEq d2 m) = [] ∧ r = m) := by
  unfold applyDecisionJoin at hr
  cases hfil : ds.filter (fun d2 => decKeyEq d2 m) with
  | nil =>
    rw [hfil] at hr
    simp only [List.mem_singleton] at hr
    exact Or.inr ⟨rfl, hr⟩
  | cons d2 tail =>
    rw [hfil] at hr
    rcases List.mem_map.mp hr with ⟨d, hd, rfl⟩
    have hdm : d ∈ ds.filter (fun d2 => decKeyEq d2 m) := by rw [hfil]; exact hd
    rcases List.mem_filter.mp hdm with ⟨hd_in, hd_key⟩
    exact Or.inl ⟨d, hd_in, hd_key, rfl⟩

theorem applyDecisionJoin_keys {ds : List Decision} {m r : MRow}
    (hr : r ∈ applyDecisionJoin ds m) :
    r.owner_id = m.owner_id ∧ r.txn_id = m.txn_id := by
  rcases applyDecisionJoin_mem hr with ⟨d, _, _, rfl⟩ | ⟨_, rfl⟩ <;> exact ⟨rfl, rfl⟩

theorem filter_keyEq_subsingleton {ds : List Decision} (hpw : ds.Pairwise decKeysDistinct)
    (m : MRow) :
    (ds.filter fun d => decKeyEq d m) = [] ∨
      ∃ d, (ds.filter fun d2 => decKeyEq d2 m) = [d] := by
  induction ds with
  | nil => exact Or.inl rfl
  | cons d ds ih =>
    rw [List.pairwise_cons] at hpw
    by_cases hd : decKeyEq d m = true
    · right
      refine ⟨d, ?_⟩
      rw [List.filter_cons, if_pos hd]
      have htail : ds.filter (fun d2 => decKeyEq d2 m) = [] := by
        apply List.filter_eq_nil_iff.mpr
        intro d2 hd2 hd2k
        have hk := decKeyEq_iff.mp hd
        have hk2 := decKeyEq_iff.mp (by simpa using hd2k)
        rcases hpw.1 d2 hd2 with hne | hne
        · exact hne (hk.1.trans hk2.1.symm)
        · exact hne (hk.2.trans hk2.2.symm)
      rw [htail]
    · rw [List.filter_cons, if_neg hd]
      exact ih hpw.2

theorem mergeRow_mem {ds : List Decision} {m r : MRow} (hr : r ∈ mergeRow ds m) :
    ∃ r0 ∈ applyDecisionJoin ds m, r = promoteApproved r0 ∧
      (!(r.review_status == "rejected")) = true := by
  unfold mergeRow at hr
  rcases List.mem_filter.mp hr with ⟨hr1, hpred⟩
  rcases List.mem_map.mp hr1 with ⟨r0, hr0, rfl⟩
  exact ⟨r0, hr0, rfl, hpred⟩

theorem mergeRow_keys {ds : List Decision} {m r : MRow} (hr : r ∈ mergeRow ds m) :
    r.owner_id = m.owner_id ∧ r.txn_id = m.txn_id := by
  rcases mergeRow_mem hr with ⟨r0, hr0, rfl, _⟩
  have h := applyDecisionJoin_keys hr0
  rw [promoteApproved_owner, promoteApproved_txn]
  exact h

theorem mergeRow_roundtrip {ds : List Decision} (hpw : ds.Pairwise decKeysDistinct)
    {m r : MRow} (hr : r ∈ mergeRow ds m) : mergeRow ds r = [r] := by
  rcases mergeRow_mem hr with ⟨r0, hr0, hr_eq, hpred⟩
  have hkeys0 := applyDecisionJoin_keys hr0
  have howner : r.owner_id = m.owner_id := by
    rw [hr_eq, promoteApproved_owner]; exact hkeys0.1
  have htxn : r.txn_id = m.txn_id := by
    rw [hr_eq, promoteApproved_txn]; exact hkeys0.2
  have hfiltereq : (ds.filter fun d => decKeyEq d r) = ds.filter fun d => decKeyEq d m :=
    List.filter_congr fun d _ => by unfold decKeyEq; rw [howner, htxn]
  rcases applyDecisionJoin_mem hr0 with ⟨d, hd_in, hd_key, hr0_eq⟩ | ⟨hnil, hr0_eq⟩
  · have hd_mem : d ∈ ds.filter fun d2 => decKeyEq d2 m :=
      List.mem_filter.mpr ⟨hd_in, hd_key⟩
    rcases filter_keyEq_subsingleton hpw m with hnil2 | ⟨d2, hd2⟩
    · rw [hnil2] at hd_mem; cases hd_mem
    · have hd_eq : d = d2 := by rw [hd2] at hd_mem; simpa using hd_mem
      subst hd_eq
      have hstat : r.review_status = d.review_status := by
        rw [hr_eq, promoteApproved_status, hr0_eq]
      unfold mergeRow
      rw [applyDecisionJoin_of_filter_single (hfiltereq.trans hd2),
        MRow_set_status_self hstat]
      simp only [List.map_cons, List.map_nil]
      rw [hr_eq, promoteApproved_idem, ← hr_eq, List.filter_cons, if_pos hpred]
      rfl
  · unfold mergeRow
    rw [applyDecisionJoin_of_filter_nil (hfiltereq.trans hnil)]
    simp only [List.map_cons, List.map_nil]
    rw [hr_eq, hr0_eq, promoteApproved_idem, ← hr0_eq, ← hr_eq,
      List.filter_cons, if_pos hpred]
    rfl

/-- Idempotence of the reconciler's per-row effects: re-applying a decision
set (one decision per candidate pair) to the surviving rows sets the same
statuses and promotions and removes nothing further. -/
theorem mergeRows_idempotent (ms : List MRow) (ds : List Decision)
    (hpw : ds.Pairwise decKeysDistinct) :
    merge_review_decisions (merge_review_decisions ms ds) ds =
      merge_review_decisions ms ds := by
  by_cases hms : ms = []
  · subst hms; rfl
  by_cases hds : ds = []
  · subst hds; rw [merge_nil_decisions, merge_nil_decisions]
  rw [merge_eq_flatMap hms hds]
  by_cases hR : ms.flatMap (mergeRow ds) = []
  · rw [hR]; rfl
  · rw [merge_eq_flatMap hR hds, List.flatMap_assoc]
    exact flatMap_congr_mem fun m _ =>
      flatMap_id_of_eq_singleton _ _ fun r hr => mergeRow_roundtrip hpw hr

theorem count_mergeSuffixCols {cols : List String} (hrs : "review_status" ∈ cols) :
    (mergeSuffixCols cols).count "review_status_review" =
      cols.count "review_status_review" + 1 := by
  have hc : cols.contains "review_status" = true := contains_true_iff.mpr hrs
  unfold mergeSuffixCols
  rw [List.count_append]
  congr 1
  rw [List.map_cons, List.map_cons, List.map_nil, if_pos hc]
  by_cases hn : cols.contains "reviewer_notes" = true
  · rw [if_pos hn]; decide
  · rw [if_neg hn]; decide

theorem rsr_mem_mergeSuffixCols {cols : List String} (hrs : "review_status" ∈ cols) :
    "review_status_review" ∈ mergeSuffixCols cols := by
  have hc : cols.contains "review_status" = true := contains_true_iff.mpr hrs
  unfold mergeSuffixCols
  apply List.mem_append_right
  rw [List.map_cons, if_pos hc]
  exact List.mem_cons.mpr (Or.inl (by decide))

/-- C4 counterexample: applying `merge_review_decisions` to its own output
does not return the same match set — the first application's frame carries a
`review_status_review` column, and applying the same decision set to that
frame raises at the reviewed-mask indexing instead of returning a frame. -/
theorem c4_counterexample :
    merge_review_decisions_frame revMatchesF revDecisions =
      Except.ok ⟨revMatchCols ++ ["review_status_review", "reviewer_notes"],
        [⟨0, 7, 19/20, "High", "approved", "tier2_fuzzy"⟩]⟩ ∧
    merge_review_decisions_frame
        ⟨revMatchCols ++ ["review_status_review", "reviewer_notes"],
          [⟨0, 7, 19/20, "High", "approved", "tier2_fuzzy"⟩]⟩ revDecisions =
      Except.error "Cannot index with multidimensional key" := by
  decide

/-- C4 as amended: the reconciler is not idempotent as a function on match
frames — its output carries the merge's suffixed `review_status_review`
column, and re-applying the decision set to that output (when any row
survives) fails at the reviewed-mask indexing, because the re-suffixed
decision status duplicates that label, rather than returning the same match
set.  Only the per-row effects are idempotent: on the surviving rows a
second application would set the same statuses, the same High/0.95
promotions, and remove nothing further, given one decision per candidate
pair as the data model requires. -/
theorem c4_reconciler_reapplication :
    (∀ (mf : Frame MRow) (ds : List Decision) (f2 : Frame MRow),
      mf.rows ≠ [] → ds ≠ [] →
      "review_status" ∈ mf.cols → "review_status_review" ∉ mf.cols →
      merge_review_decisions_frame mf ds = Except.ok f2 → f2.rows ≠ [] →
      "review_status_review" ∈ f2.cols ∧
        merge_review_decisions_frame f2 ds =
          Except.error "Cannot index with multidimensional key") ∧
    (∀ (ms : List MRow) (ds : List Decision), ds.Pairwise decKeysDistinct →
      merge_review_decisions (merge_review_decisions ms ds) ds =
        merge_review_decisions ms ds) := by
  refine ⟨?_, mergeRows_idempotent⟩
  intro mf ds f2 hrows hds hrs hnorr hok hf2
  have hcnt0 : mf.cols.count "review_status_review" = 0 :=
    List.count_eq_zero.mpr hnorr
  have hcnt1 : (mergeSuffixCols mf.cols).count "review_status_review" = 1 := by
    rw [count_mergeSuffixCols hrs, hcnt0]
  unfold merge_review_decisions_frame at hok
  rw [if_neg (by simpa using hrows), if_neg (by simpa using hds),
    if_neg (by rw [hcnt1]; decide)] at hok
  have hf2eq : (⟨mergeSuffixCols mf.cols, merge_review_decisions mf.rows ds⟩ :
      Frame MRow) = f2 := by
    simpa using hok
  subst hf2eq
  refine ⟨rsr_mem_mergeSuffixCols hrs, ?_⟩
  have hrs2 : "review_status" ∈ mergeSuffixCols mf.cols := List.mem_append_left _ hrs
  have hdup : 1 < (mergeSuffixCols (mergeSuffixCols mf.cols)).count
      "review_status_review" := by
    rw [count_mergeSuffixCols hrs2, hcnt1]
    decide
  unfold merge_review_decisions_frame
  rw [if_neg (by simpa using hf2), if_neg (by simpa using hds), if_pos hdup]

/-- Witness for C4-as-amended at the concrete one-candidate instance: both
the failing re-application and the per-row idempotence. -/
theorem c4_reconciler_reapplication_witness :
    ("review_status_review" ∈
        ((⟨revMatchCols ++ ["review_status_review", "reviewer_notes"],
          [⟨0, 7, 19/20, "High", "approved", "tier2_fuzzy"⟩]⟩ : Frame MRow)).cols ∧
      merge_review_decisions_frame
          ⟨revMatchCols ++ ["review_status_review", "reviewer_notes"],
            [⟨0, 7, 19/20, "High", "approved", "tier2_fuzzy"⟩]⟩ revDecisions =
        Except.error "Cannot index with multidimensional key") ∧
    merge_review_decisions
        (merge_review_decisions
          [⟨0, 7, 78/100, "Low", "pending_review", "tier2_fuzzy"⟩] revDecisions)
        revDecisions =
      merge_review_decisions
        [⟨0, 7, 78/100, "Low", "pending_review", "tier2_fuzzy"⟩] revDecisions :=
  ⟨c4_reconciler_reapplication.1 revMatchesF revDecisions
      ⟨revMatchCols ++ ["review_status_review", "reviewer_notes"],
        [⟨0, 7, 19/20, "High", "approved", "tier2_fuzzy"⟩]⟩
      (by decide) (by decide) (by decide) (by decide) (by decide) (by decide),
   c4_reconciler_reapplication.2
     [⟨0, 7, 78/100, "Low", "pending_review", "tier2_fuzzy"⟩] revDecisions (by decide)⟩

/-- C5: an `approved` decision sets its matching candidate to bucket High,
score exactly 0.95 and status `approved`; a `rejected` decision removes every
row with its key pair; candidates with no matching decision keep their prior
`review_status`; and decisions matching no candidate are ignored — every
output row stems from an input candidate, with no error. -/
theorem c5_decision_effects (ms : List MRow) (ds : List Decision)
    (hpw : ds.Pairwise decKeysDistinct) :
    (∀ m ∈ ms, ∀ d ∈ ds, decKeyEq d m = true → d.review_status = "approved" →
      ({ m with
          review_status := "approved"
          confidence_bucket := "High"
          match_confidence := 19/20 } : MRow) ∈ merge_review_decisions ms ds) ∧
    (∀ d ∈ ds, d.review_status = "rejected" →
      ∀ r ∈ merge_review_decisions ms ds,
        ¬(r.owner_id = d.owner_id ∧ r.txn_id = d.txn_id)) ∧
    (∀ m ∈ ms, (∀ d ∈ ds, decKeyEq d m = false) → m.review_status ≠ "rejected" →
      ∃ r ∈ merge_review_decisions ms ds,
        r.owner_id = m.owner_id ∧ r.txn_id = m.txn_id ∧
          r.review_status = m.review_status) ∧
    (∀ r ∈ merge_review_decisions ms ds, ∃ m ∈ ms,
      r.owner_id = m.owner_id ∧ r.txn_id = m.txn_id) := by
  refine ⟨?_, ?_, ?_, ?_⟩
  · intro m hm d hd hkey happ
    have hms : ms ≠ [] := List.ne_nil_of_mem hm
    have hds : ds ≠ [] := List.ne_nil_of_mem hd
    rw [merge_eq_flatMap hms hds]
    apply List.mem_flatMap.mpr
    refine ⟨m, hm, ?_⟩
    have hd_mem : d ∈ ds.filter fun d2 => decKeyEq d2 m := List.mem_filter.mpr ⟨hd, hkey⟩
    rcases filter_keyEq_subsingleton hpw m with hnil | ⟨d2, hd2⟩
    · rw [hnil] at hd_mem; cases hd_mem
    · have hdd : d = d2 := by rw [hd2] at hd_mem; simpa using hd_mem
      subst hdd
      unfold mergeRow
      rw [applyDecisionJoin_of_filter_single hd2, happ]
      simp only [List.map_cons, List.map_nil]
      have hpr : promoteApproved { m with review_status := "approved" } =
          { m with
            review_status := "approved"
            confidence_bucket := "High"
            match_confidence := 19/20 } := by
        unfold promoteApproved
        rw [if_pos rfl]
      rw [hpr, List.filter_cons]
      simp
  · intro d hd hrej r hr hk
    have hds : ds ≠ [] := List.ne_nil_of_mem hd
    by_cases hms : ms = []
    · subst hms
      rw [show merge_review_decisions [] ds = [] from rfl] at hr
      cases hr
    · rw [merge_eq_flatMap hms hds] at hr
      rcases List.mem_flatMap.mp hr with ⟨m, hm, hrm⟩
      have hkeys := mergeRow_keys hrm
      have hkey : decKeyEq d m = true := decKeyEq_iff.mpr
        ⟨by rw [← hk.1]; exact hkeys.1, by rw [← hk.2]; exact hkeys.2⟩
      have hd_mem : d ∈ ds.filter fun d2 => decKeyEq d2 m := List.mem_filter.mpr ⟨hd, hkey⟩
      rcases mergeRow_mem hrm with ⟨r0, hr0, hr_eq, hpred⟩
      rcases applyDecisionJoin_mem hr0 with ⟨d2, hd2_in, hd2_key, hr0_eq⟩ | ⟨hnil, hr0_eq⟩
      · rcases filter_keyEq_subsingleton hpw m with hnil2 | ⟨d3, hd3⟩
        · rw [hnil2] at hd_mem; cases hd_mem
        · have hdd : d = d3 := by rw [hd3] at hd_mem; simpa using hd_mem
          have hd2d : d2 = d3 := by
            have hmem2 : d2 ∈ ds.filter fun d4 => decKeyEq d4 m :=
              List.mem_filter.mpr ⟨hd2_in, hd2_key⟩
            rw [hd3] at hmem2; simpa using hmem2
          have hrs : r.review_status = "rejected" := by
            rw [hr_eq, promoteApproved_status, hr0_eq]
            show d2.review_status = "rejected"
            rw [hd2d, ← hdd, hrej]
          rw [hrs] at hpred
          simp at hpred
      · rw [hnil] at hd_mem; cases hd_mem
  · intro m hm hnone hnrej
    by_cases hds : ds = []
    · subst hds
      rw [merge_nil_decisions]
      exact ⟨m, hm, rfl, rfl, rfl⟩
    · have hms : ms ≠ [] := List.ne_nil_of_mem hm
      rw [merge_eq_flatMap hms hds]
      refine ⟨promoteApproved m, ?_, promoteApproved_owner m, promoteApproved_txn m,
        promoteApproved_status m⟩
      apply List.mem_flatMap.mpr
      refine ⟨m, hm, ?_⟩
      unfold mergeRow
      have hfilnil : ds.filter (fun d2 => decKeyEq d2 m) = [] :=
        List.filter_eq_nil_iff.mpr fun d hd => by simp [hnone d hd]
      rw [applyDecisionJoin_of_filter_nil hfilnil]
      simp only [List.map_cons, List.map_nil]
      have hp : (!(promoteApproved m).review_status == "rejected") = true := by
        rw [promoteApproved_status]
        simp [hnrej]
      rw [List.filter_cons, if_pos hp]
      exact List.mem_cons_self _ _
  · intro r hr
    by_cases hms : ms = []
    · subst hms
      rw [show merge_review_decisions [] ds = [] from rfl] at hr
      cases hr
    by_cases hds : ds = []
    · subst hds
      rw [merge_nil_decisions] at hr
      exact ⟨r, hr, rfl, rfl⟩
    · rw [merge_eq_flatMap hms hds] at hr
      rcases List.mem_flatMap.mp hr with ⟨m, hm, hrm⟩
      exact ⟨m, hm, (mergeRow_keys hrm).1, (mergeRow_keys hrm).2⟩

/-- Witness for C5: an approved decision on a concrete Low candidate yields
the promoted row in the reconciled set. -/
theorem c5_decision_effects_witness :
    ({ owner_id := 0, txn_id := 7, match_confidence := 19/20,
       confidence_bucket := "High", review_status := "approved",
       match_method := "tier2_fuzzy" } : MRow) ∈
      merge_review_decisions
        [⟨0, 7, 78/100, "Low", "pending_review", "tier2_fuzzy"⟩]
        [⟨0, 7, "approved", ""⟩] :=
  (c5_decision_effects
      [⟨0, 7, 78/100, "Low", "pending_review", "tier2_fuzzy"⟩]
      [⟨0, 7, "approved", ""⟩] (by decide)).1
    ⟨0, 7, 78/100, "Low", "pending_review", "tier2_fuzzy"⟩ (by decide)
    ⟨0, 7, "approved", ""⟩ (by decide) (by decide) rfl

/-- C1 as amended: the pipeline's final match set is the bare concatenation
of Tier 1 matches and (reconciled) Tier 2 accepted matches — per owner the
number of accepted rows is the sum over the two tiers, with no deduplication,
detection, or logging of owners holding several accepted matches. -/
theorem c1_union_counts (sim : String → String → ℚ) (o : Frame ORow) (t : Frame TRow)
    (ds : List Decision) (m1 : List MRow) (uo : Frame ORow) (ut : Frame TRow)
    (acc : List MRow) (uo2 : Frame ORow) (ut2 : Frame TRow)
    (h1 : tier1_deterministic_match o t (1/100) = Except.ok (m1, uo, ut))
    (h2 : tier2_fuzzy_match sim uo ut (3/4) 5 = Except.ok (acc, uo2, ut2))
    (k : Nat) :
    (okRows (pipeline_combined sim o t ds)).countP (fun r => r.owner_id == k) =
      m1.countP (fun r => r.owner_id == k) +
        (if ds.length > 0 then merge_review_decisions acc ds else acc).countP
          (fun r => r.owner_id == k) := by
  simp only [pipeline_combined, h1, h2, bind, Except.bind, pure, Except.pure, okRows]
  exact List.countP_append _ _ _

/-- Witness for C1 at the concrete duplicate-join instance (owner 0 collects
its Tier 1 rows; Tier 2 and the decision set are empty). -/
theorem c1_union_counts_witness :
    (okRows (pipeline_combined token_set_ratio_model dupOwnersF dupTxnsF [])).countP
        (fun r => r.owner_id == 0) =
      ([⟨0, 0, 1, "High", "auto_approved", "tier1_deterministic"⟩,
        ⟨0, 1, 1, "High", "auto_approved", "tier1_deterministic"⟩] : List MRow).countP
          (fun r => r.owner_id == 0) +
        (if ([] : List Decision).length > 0 then
            merge_review_decisions [] [] else ([] : List MRow)).countP
          (fun r => r.owner_id == 0) :=
  c1_union_counts token_set_ratio_model dupOwnersF dupTxnsF []
    [⟨0, 0, 1, "High", "auto_approved", "tier1_deterministic"⟩,
     ⟨0, 1, 1, "High", "auto_approved", "tier1_deterministic"⟩]
    ⟨colsO, []⟩ ⟨colsT, []⟩ [] ⟨colsO, []⟩ ⟨colsT, []⟩
    (by decide) (by decide) 0

/-- Witness for C2-as-amended at the duplicate-join instance: the slice of
the Tier 1 output for owner 0 is exactly its two joined transactions. -/
theorem c2_tier1_keeps_all_joined_witness :
    ([⟨0, 0, 1, "High", "auto_approved", "tier1_deterministic"⟩,
      ⟨0, 1, 1, "High", "auto_approved", "tier1_deterministic"⟩] : List MRow).filter
        (fun r => r.owner_id == (⟨0, "k", 100, "p", "towera", "0001"⟩ : ORow).owner_id) =
      ((withTxnIds dupTxnsF).rows.filter fun x =>
          x.composite_key = (⟨0, "k", 100, "p", "towera", "0001"⟩ : ORow).composite_key ∧
          area_diff_pct (⟨0, "k", 100, "p", "towera", "0001"⟩ : ORow).area_sqm
            x.area_sqm ≤ 1/100).map
        fun x => tier1_row (⟨0, "k", 100, "p", "towera", "0001"⟩, x) :=
  c2_tier1_keeps_all_joined dupOwnersF dupTxnsF (1/100)
    [⟨0, 0, 1, "High", "auto_approved", "tier1_deterministic"⟩,
     ⟨0, 1, 1, "High", "auto_approved", "tier1_deterministic"⟩]
    ⟨colsO, []⟩ ⟨colsT, []⟩ (by decide) (by decide)
    ⟨0, "k", 100, "p", "towera", "0001"⟩ (by decide)

/-- Witness for C3-as-amended at the zero-area instance: the kept match for
the zero-area owner certifies key equality and the tolerated ratio. -/
theorem c3_area_tolerance_iff_witness :
    (⟨0, "k", 0, "p", "towera", "0001"⟩ : TRow).composite_key =
        (⟨0, "k", 0, "p", "towera", "0001"⟩ : ORow).composite_key ∧
      area_diff_pct (⟨0, "k", 0, "p", "towera", "0001"⟩ : ORow).area_sqm
        (⟨0, "k", 0, "p", "towera", "0001"⟩ : TRow).area_sqm ≤ 1/100 :=
  (c3_area_tolerance_iff zeroOwnersF zeroTxnsF (1/100)
      [⟨0, 0, 1, "High", "auto_approved", "tier1_deterministic"⟩]
      ⟨colsO, []⟩ ⟨colsT, []⟩ (by decide) (by decide) (by decide)
      ⟨0, "k", 0, "p", "towera", "0001"⟩ (by decide)
      ⟨0, "k", 0, "p", "towera", "0001"⟩ (by decide)).mp
    ⟨⟨0, 0, 1, "High", "auto_approved", "tier1_deterministic"⟩, by decide, rfl, rfl⟩

theorem roundHalfEven_nonneg {x : ℚ} (hx : 0 ≤ x) : 0 ≤ roundHalfEven x := by
  unfold roundHalfEven
  have hf : (0 : ℤ) ≤ ⌊x⌋ := Int.floor_nonneg.mpr hx
  dsimp only
  split_ifs <;> omega

theorem pyRoundTo_nonneg {k : Nat} {x : ℚ} (hx : 0 ≤ x) : 0 ≤ pyRoundTo k x := by
  unfold pyRoundTo
  apply div_nonneg
  · exact_mod_cast roundHalfEven_nonneg (mul_nonneg hx (by positivity))
  · positivity

theorem mem_takeWhile_digit {l : List Char} {c : Char}
    (hc : c ∈ l.takeWhile Char.isDigit) : c.isDigit = true := by
  induction l with
  | nil => cases hc
  | cons a l ih =>
    by_cases ha : a.isDigit = true
    · rw [List.takeWhile_cons_of_pos ha] at hc
      rcases List.mem_cons.mp hc with rfl | hc2
      · exact ha
      · exact ih hc2
    · rw [List.takeWhile_cons_of_neg ha] at hc
      cases hc

/-- C8 as amended: normalized areas are nonnegative whenever the raw value
is nonnegative (missing/unparseable raw values give 0.0); a unit field whose
stripped text contains a digit becomes an all-digit string of length at least
4 (first digit run, zero-padded), and digit-free unit text passes through
stripped but otherwise unchanged. -/
theorem c8_normalizer_shapes :
    (∀ s : String,
      (hasDigitStr (pyStrip s) = true →
        (extract_unit_number s).toList.all Char.isDigit = true ∧
          4 ≤ (extract_unit_number s).length) ∧
      (hasDigitStr (pyStrip s) = false → extract_unit_number s = pyStrip s)) ∧
    (∀ x : ℚ, 0 ≤ x → 0 ≤ normalize_area (some x)) ∧
    0 ≤ normalize_area none := by
  refine ⟨fun s => ⟨?_, ?_⟩, fun x hx => ?_, le_refl 0⟩
  · intro hdig
    by_cases hs : s = ""
    · rw [hs] at hdig; cases hdig
    · unfold extract_unit_number
      rw [if_neg hs, if_pos hdig]
      constructor
      · unfold zfill firstDigitRun
        simp only [String.toList, List.all_eq_true]
        intro c hc
        rcases List.mem_append.mp hc with hrep | hrun
        · rw [List.eq_of_mem_replicate hrep]
          decide
        · exact mem_takeWhile_digit hrun
      · unfold zfill
        show 4 ≤ (String.mk _).length
        simp only [String.length]
        rw [List.length_append, List.length_replicate]
        omega
  · intro hnone
    by_cases hs : s = ""
    · rw [hs]
      decide
    · unfold extract_unit_number
      rw [if_neg hs, if_neg (by rw [hnone]; exact Bool.false_ne_true)]
  · simp only [normalize_area]
    split_ifs with h
    · exact pyRoundTo_nonneg (mul_nonneg hx (by norm_num))
    · exact pyRoundTo_nonneg hx

/-- Witness for C8-as-amended: `"unit 12"` yields an all-digit, 4+-character
unit, and a nonnegative raw area stays nonnegative. -/
theorem c8_normalizer_shapes_witness :
    (extract_unit_number "unit 12").toList.all Char.isDigit = true ∧
    4 ≤ (extract_unit_number "unit 12").length ∧
    0 ≤ normalize_area (some 5) :=
  ⟨((c8_normalizer_shapes.1 "unit 12").1 (by decide)).1,
   ((c8_normalizer_shapes.1 "unit 12").1 (by decide)).2,
   c8_normalizer_shapes.2.1 5 (by norm_num)⟩

end CsvMatching
